import Mathlib

/-!
A shallow embedding of the core of the `jenkins-tui` repository, and proofs
about it.  The embedding covers:

* `internal/permutation` (`Build`, the cartesian permutation builder);
* the polling loops of `internal/jenkins/client.go`
  (`ResolveQueue`, `PollBuild`) and the crumb handshake (`ensureCrumb`);
* the per-index worker body of `internal/executor` (`Run`, `mapResult`);
* the TUI consumer folds of `internal/config/save.go`
  (`applyRunUpdate`, `rebuildFailedOnly`).

Go maps `map[string]string` are embedded as association lists
`List (String × String)` read through `mapGet`; a Go map bundled with the
iteration order that a particular `range` loop observes is embedded as a
`List (key × value)` in that order, because Go leaves map iteration order
unspecified and the permutation builder's output order depends on it.
Go `int` values that the code compares (`maxCount`, build numbers, indices)
are embedded as `Int`; overflow is irrelevant at the ranges involved.
Network effects are embedded as explicit oracles: each remote fetch a loop
performs is one element of an input list describing that fetch's outcome.
-/

namespace JenkinsTui

/-! ### Association-list embedding of Go string maps -/

/-- Returns `true` iff the map holds key `k` (Go: `_, ok := m[k]`). -/
def hasKey : List (String × String) → String → Bool
  | [], _ => false
  | p :: tl, k => p.1 == k || hasKey tl k

/-- Lookup (Go: `m[k]`, as an `Option` to mark absence). -/
def mapGet : List (String × String) → String → Option String
  | [], _ => none
  | p :: tl, k => if p.1 == k then some p.2 else mapGet tl k

/-- Assignment `m[k] = v`: overwrite the binding if the key is present,
otherwise append the new binding. -/
def mapSet (m : List (String × String)) (k v : String) : List (String × String) :=
  if hasKey m k then m.map (fun p => if p.1 == k then (k, v) else p)
  else m ++ [(k, v)]

/-- The `copyMap` helper from `internal/permutation`: a value copy of the map.  With
value semantics on association lists this is the identity. -/
def copyMap (src : List (String × String)) : List (String × String) := src

/-! ### `internal/models`: JobSpec and RunState -/

/-- Embeds `models.JobSpec`: one concrete parameter assignment. -/
structure JobSpec where
  Params : List (String × String)
deriving DecidableEq, Repr

/-- Embeds `models.RunState`, a Go string type. -/
abbrev RunState := String

def RunPlanned : RunState := "PLANNED"
def RunQueued : RunState := "QUEUED"
def RunRunning : RunState := "RUNNING"
def RunSuccess : RunState := "SUCCESS"
def RunFailed : RunState := "FAILED"
def RunAborted : RunState := "ABORTED"
def RunError : RunState := "ERROR"

/-! ### `internal/permutation.Build`

`Input.choiceValues` is the Go map `ChoiceValues` together with the key
iteration order observed by the `range` loop that collects `keys`; Go does
not fix this order, so it is an explicit part of the embedded input. -/

structure Input where
  choiceValues : List (String × List String)
  fixedValues : List (String × String)
deriving DecidableEq, Repr

/-- The key-collection loop of `Build`: error on the first choice
parameter with no selected values, otherwise return the keys in
iteration order. -/
def checkChoices : List (String × List String) → Except String (List String)
  | [] => Except.ok []
  | (k, vals) :: rest =>
    if vals.isEmpty then
      Except.error ("choice parameter " ++ k ++ " has no selected values")
    else
      match checkChoices rest with
      | Except.error e => Except.error e
      | Except.ok ks => Except.ok (k :: ks)

/-- The counting error produced at a leaf once the accumulated result
count exceeds the limit. -/
def countErrMsg (generated : Nat) (maxCount : Int) : String :=
  "generated " ++ toString generated ++ " permutations, max allowed is "
    ++ toString maxCount

/-- The recursive `walk` closure of `Build`.  The first list argument is
the remaining choice dimensions (`keys[i..]` with their value lists),
`current` is the in-progress assignment map, `results` the accumulator.
At a leaf the params map is the fixed values overwritten by `current`,
and the hard ceiling is checked the moment the new result is appended. -/
def walk (fixed : List (String × String)) (maxCount : Int) :
    List (String × List String) → List (String × String) → List JobSpec →
    Except String (List JobSpec)
  | [], current, results =>
    let params := current.foldl (fun m kv => mapSet m kv.1 kv.2) (copyMap fixed)
    let results' := results ++ [⟨params⟩]
    if (results'.length : Int) > maxCount then
      Except.error (countErrMsg results'.length maxCount)
    else
      Except.ok results'
  | (key, vals) :: rest, current, results =>
    vals.foldl
      (fun acc v =>
        Except.bind acc (fun rs => walk fixed maxCount rest (mapSet current key v) rs))
      (Except.ok results)

/-- Embeds `permutation.Build`: validate the choice dimensions, handle the
degenerate no-choice case, otherwise walk the cartesian product. -/
def Build (input : Input) (maxCount : Int) : Except String (List JobSpec) :=
  match checkChoices input.choiceValues with
  | Except.error e => Except.error e
  | Except.ok keys =>
    if keys.isEmpty then
      Except.ok [⟨copyMap input.fixedValues⟩]
    else
      walk input.fixedValues maxCount input.choiceValues [] []

deriving instance DecidableEq for Except

/-! ### `internal/jenkins/client.go`: the polling loops

Each loop iteration of `ResolveQueue`/`PollBuild` either observes context
cancellation or performs one `getJSON` fetch; the sequence of those tick
outcomes is the oracle list.  An exhausted oracle means the loop is still
polling (`pending`, carrying the current consecutive-error counter). -/

/-- The `executable` field of the queue-item JSON. -/
structure QueueExecutable where
  number : Int
  url : String
deriving DecidableEq, Repr

/-- The queue-item JSON body read by `ResolveQueue`. -/
structure QueueResp where
  executable : Option QueueExecutable
  cancelled : Bool
deriving DecidableEq, Repr

/-- One `ResolveQueue` tick: context done, a failed fetch, or a fetched body. -/
inductive QPoll where
  | ctxDone
  | fetchErr (e : String)
  | fetched (q : QueueResp)
deriving DecidableEq, Repr

/-- Result of running `ResolveQueue` against a finite oracle. -/
inductive RQOutcome where
  | ctxCancelled
  | failed (msg : String)
  | resolved (url : String) (number : Int)
  | pending (consecutiveErrors : Nat)
deriving DecidableEq, Repr

/-- The `ResolveQueue` loop of `client.go`: swallow transient fetch
failures while `consecutiveErrors` stays below 5 (the counter is
incremented first, then compared with `>= 5`), reset the counter on any
successful fetch, stop on remote cancellation or an executable with a
non-empty URL. -/
def resolveQueueLoop (consecutiveErrors : Nat) :
    List QPoll → RQOutcome
  | [] => RQOutcome.pending consecutiveErrors
  | QPoll.ctxDone :: _ => RQOutcome.ctxCancelled
  | QPoll.fetchErr e :: rest =>
    let c := consecutiveErrors + 1
    if c ≥ 5 then
      RQOutcome.failed ("resolve queue failed after " ++ toString c ++ " retries: " ++ e)
    else
      resolveQueueLoop c rest
  | QPoll.fetched q :: rest =>
    if q.cancelled then
      RQOutcome.failed "queue item cancelled"
    else
      match q.executable with
      | some ex =>
        if ex.url ≠ "" then RQOutcome.resolved ex.url ex.number
        else resolveQueueLoop 0 rest
      | none => resolveQueueLoop 0 rest

/-- One `PollBuild` tick. -/
inductive BPoll where
  | ctxDone
  | fetchErr (e : String)
  | fetched (building : Bool) (result : String)
deriving DecidableEq, Repr

/-- Result of running `PollBuild` against a finite oracle. -/
inductive PBOutcome where
  | ctxCancelled
  | failed (msg : String)
  | completed (result : String)
  | pending (consecutiveErrors : Nat)
deriving DecidableEq, Repr

/-- The `PollBuild` loop of `client.go`: same bounded-transient-failure
policy as `resolveQueueLoop`; once the build reports non-building, an
empty result string is replaced by `"UNKNOWN"` on the success path. -/
def pollBuildLoop (consecutiveErrors : Nat) :
    List BPoll → PBOutcome
  | [] => PBOutcome.pending consecutiveErrors
  | BPoll.ctxDone :: _ => PBOutcome.ctxCancelled
  | BPoll.fetchErr e :: rest =>
    let c := consecutiveErrors + 1
    if c ≥ 5 then
      PBOutcome.failed ("poll build failed after " ++ toString c ++ " retries: " ++ e)
    else
      pollBuildLoop c rest
  | BPoll.fetched building result :: rest =>
    if building then
      pollBuildLoop 0 rest
    else if result = "" then
      PBOutcome.completed "UNKNOWN"
    else
      PBOutcome.completed result

/-! ### `internal/jenkins/client.go`: crumb handshake -/

/-- The decoded crumb body. -/
structure Crumb where
  field : String
  value : String
deriving DecidableEq, Repr

/-- The crumb-relevant state of a `jenkins.Client`. -/
structure ClientState where
  crumb : Option Crumb
deriving DecidableEq, Repr

/-- Outcome of one crumb-issuer HTTP round trip, as an oracle. -/
inductive CrumbFetch where
  | netErr (e : String)
  | notFound
  | httpErr (status : Int) (body : String)
  | decodeErr (e : String)
  | decoded (field value : String)
deriving DecidableEq, Repr

/-- Embeds `crumbHeader`: the stored crumb header pair, if any. -/
def crumbHeader (st : ClientState) : Option (String × String) :=
  st.crumb.map (fun c => (c.field, c.value))

/-- Embeds `ensureCrumb`: skip entirely when a crumb is already stored, otherwise
perform the handshake described by the oracle.  Returns the new state,
whether the handshake (the crumb-issuer request) was performed, and the
error, if any.  A decoded crumb with an empty field or value is not
stored; storing is guarded by a set-if-absent check. -/
def ensureCrumb (st : ClientState) (fetch : CrumbFetch) :
    ClientState × Bool × Option String :=
  match crumbHeader st with
  | some _ => (st, false, none)
  | none =>
    match fetch with
    | CrumbFetch.netErr e => (st, true, some ("fetch crumb: " ++ e))
    | CrumbFetch.notFound => (st, true, none)
    | CrumbFetch.httpErr status body =>
      (st, true, some ("fetch crumb failed (" ++ toString status ++ "): " ++ body))
    | CrumbFetch.decodeErr e => (st, true, some ("decode crumb response: " ++ e))
    | CrumbFetch.decoded f v =>
      if f ≠ "" ∧ v ≠ "" then
        (if st.crumb = none then ⟨some ⟨f, v⟩⟩ else st, true, none)
      else
        (st, true, none)

/-- A sequence of trigger calls on one client instance, each running
`ensureCrumb` with the next oracle outcome; returns the final state and
how many times the handshake was performed. -/
def ensureCrumbSeq (st : ClientState) : List CrumbFetch → ClientState × Nat
  | [] => (st, 0)
  | f :: fs =>
    let step := ensureCrumb st f
    let tail := ensureCrumbSeq step.1 fs
    (tail.1, (if step.2.1 then 1 else 0) + tail.2)

/-! ### `internal/executor`: the worker body and `mapResult` -/

/-- Embeds `models.RunUpdate`.  Omitted Go fields are zero values; `Err` is an
`error`, embedded as `Option String`. -/
structure RunUpdate where
  index : Int
  state : RunState
  queueURL : String := ""
  buildURL : String := ""
  buildNumber : Int := 0
  result : String := ""
  err : Option String := none
  done : Bool := false
deriving DecidableEq, Repr

/-- Embeds `executor.mapResult`: map a remote result string to a terminal
`RunState` (the Go `switch` is an equality chain). -/
def mapResult (result : String) : RunState :=
  if result = "SUCCESS" then RunSuccess
  else if result = "ABORTED" then RunAborted
  else RunFailed

/-- The body of the worker loop of `executor.Run` for one claimed index:
the exact sequence of `RunUpdate` values sent for that index, as a
function of the outcomes of the three protocol calls.  Each failing call
emits a terminal `Error` update and abandons the index (`continue`). -/
def runIndex (idx : Int) (trigger : Except String String)
    (resolve : Except String (String × Int)) (poll : Except String String) :
    List RunUpdate :=
  let claimed : RunUpdate := { index := idx, state := RunQueued }
  match trigger with
  | Except.error e =>
    [claimed, { index := idx, state := RunError, err := some e, done := true }]
  | Except.ok queueURL =>
    let located : RunUpdate := { index := idx, state := RunQueued, queueURL := queueURL }
    match resolve with
    | Except.error e =>
      [claimed, located,
        { index := idx, state := RunError, queueURL := queueURL, err := some e, done := true }]
    | Except.ok (buildURL, num) =>
      let running : RunUpdate :=
        { index := idx, state := RunRunning, queueURL := queueURL,
          buildURL := buildURL, buildNumber := num }
      match poll with
      | Except.error e =>
        [claimed, located, running,
          { index := idx, state := RunError, buildURL := buildURL,
            buildNumber := num, err := some e, done := true }]
      | Except.ok result =>
        [claimed, located, running,
          { index := idx, state := mapResult result, buildURL := buildURL,
            buildNumber := num, result := result, done := true }]

/-! ### `internal/config/save.go`: the consumer folds -/

/-- Embeds `models.RunRecord`; timestamps are abstract clock readings. -/
structure RunRecord where
  index : Int
  spec : JobSpec
  state : RunState
  queueURL : String := ""
  buildURL : String := ""
  buildNumber : Int := 0
  result : String := ""
  err : String := ""
  startedAt : Nat := 0
  endedAt : Nat := 0
deriving DecidableEq, Repr

/-- The field-merge part of `applyRunUpdate`: state always overwritten,
every other field only when the update carries a non-zero value, and the
end timestamp stamped on the terminal update. -/
def applyFields (r : RunRecord) (u : RunUpdate) (now : Nat) : RunRecord :=
  let r1 := { r with state := u.state }
  let r2 := if u.queueURL ≠ "" then { r1 with queueURL := u.queueURL } else r1
  let r3 := if u.buildURL ≠ "" then { r2 with buildURL := u.buildURL } else r2
  let r4 := if u.buildNumber ≠ 0 then { r3 with buildNumber := u.buildNumber } else r3
  let r5 := if u.result ≠ "" then { r4 with result := u.result } else r4
  let r6 :=
    match u.err with
    | some e => { r5 with err := e }
    | none => r5
  if u.done then { r6 with endedAt := now } else r6

/-- Embeds `(m *model).applyRunUpdate`, acting on the `runRecords` slice: an
out-of-range index returns the records unchanged; otherwise the record at
the index is merged with the update. -/
def applyRunUpdate (records : List RunRecord) (u : RunUpdate) (now : Nat) :
    List RunRecord :=
  if u.index < 0 ∨ (records.length : Int) ≤ u.index then records
  else
    match records.get? u.index.toNat with
    | none => records
    | some r => records.set u.index.toNat (applyFields r u now)

/-- The `m.runRecords`/`m.permutations`/`m.status` slice of the TUI model. -/
structure TuiModel where
  runRecords : List RunRecord
  permutations : List JobSpec
  status : String
deriving DecidableEq, Repr

/-- The retry filter of `rebuildFailedOnly`. -/
def isRetryState (s : RunState) : Bool :=
  s == RunFailed || s == RunAborted || s == RunError

/-- Embeds `(m *model).rebuildFailedOnly`: collect, in record order, the specs of
records whose state is Failed, Aborted or Error; replace the permutations
only when that subset is non-empty. -/
def rebuildFailedOnly (m : TuiModel) : TuiModel :=
  let failed := (m.runRecords.filter (fun r => isRetryState r.state)).map
    (fun r => r.spec)
  if failed.length > 0 then
    { m with
        permutations := failed,
        status := "Prepared " ++ toString failed.length ++ " failed runs for retry" }
  else m

/-! ### Analysis helpers for `Build` -/

/-- The `JobSpec` produced at a leaf of `walk`: the fixed values
overwritten by the accumulated assignment. -/
def mkSpec (fixed : List (String × String)) (cur : List (String × String)) : JobSpec :=
  ⟨cur.foldl (fun m kv => mapSet m kv.1 kv.2) (copyMap fixed)⟩

/-- The product `s1 * s2 * ... * sN` of the dimension sizes. -/
def prodLens : List (String × List String) → Nat
  | [] => 1
  | (_, vs) :: rest => vs.length * prodLens rest

/-- The leaf assignments of `walk`, in emission order. -/
def leaves : List (String × List String) → List (String × String) →
    List (List (String × String))
  | [], current => [current]
  | (key, vals) :: rest, current =>
    vals.flatMap (fun v => leaves rest (mapSet current key v))

/-- Modelled from the spec's words (§3 JobSpec ordering): the cartesian
product over the choice names in iteration order, each name's candidate
values enumerated in the order supplied, outermost name varying slowest. -/
def specCartesian : List (String × List String) → List (List (String × String))
  | [] => [[]]
  | (key, vals) :: rest =>
    vals.flatMap (fun v => (specCartesian rest).map (fun asg => (key, v) :: asg))

/-- The record and update of the C7 witness scenario: a queue locator was
captured, then a `Running` event with an empty queue locator arrives. -/
def c7rec : RunRecord :=
  { index := 0, spec := ⟨[]⟩, state := RunQueued, queueURL := "http://q/1" }

def c7upd : RunUpdate :=
  { index := 0, state := RunRunning, buildURL := "http://b/1", buildNumber := 1 }

/-- The five run records of the C8 witness scenario. -/
def c8records : List RunRecord :=
  [{ index := 0, spec := ⟨[("P", "v0")]⟩, state := RunSuccess },
   { index := 1, spec := ⟨[("P", "v1")]⟩, state := RunFailed },
   { index := 2, spec := ⟨[("P", "v2")]⟩, state := RunError },
   { index := 3, spec := ⟨[("P", "v3")]⟩, state := RunAborted },
   { index := 4, spec := ⟨[("P", "v4")]⟩, state := RunSuccess }]

theorem length_bind_const {α β : Type} (l : List α) (f : α → List β) (n : Nat)
    (h : ∀ a, (f a).length = n) : (l.flatMap f).length = l.length * n := by
  induction l with
  | nil => simp
  | cons a tl ih => simp [List.flatMap_cons, h, ih]; ring

theorem leaves_length :
    ∀ (choice : List (String × List String)) (current : List (String × String)),
      (leaves choice current).length = prodLens choice := by
  intro choice
  induction choice with
  | nil => intro current; simp [leaves, prodLens]
  | cons p rest ih =>
    intro current
    obtain ⟨key, vals⟩ := p
    simp only [leaves, prodLens]
    exact length_bind_const vals _ _ (fun v => ih _)

theorem specCartesian_length :
    ∀ choice : List (String × List String),
      (specCartesian choice).length = prodLens choice := by
  intro choice
  induction choice with
  | nil => simp [specCartesian, prodLens]
  | cons p rest ih =>
    obtain ⟨key, vals⟩ := p
    simp only [specCartesian, prodLens]
    refine length_bind_const vals _ _ (fun v => ?h)
    simp [ih]

/-! ### Lookup lemmas for the map embedding -/

theorem mapGet_append_single_ne (m : List (String × String)) (k v k' : String)
    (h : k' ≠ k) : mapGet (m ++ [(k, v)]) k' = mapGet m k' := by
  induction m with
  | nil => simp [mapGet, beq_eq_false_iff_ne.mpr (fun hk : k = k' => h hk.symm)]
  | cons p tl ih =>
    by_cases hp : p.1 = k'
    · simp [mapGet, hp]
    · simp [mapGet, beq_eq_false_iff_ne.mpr hp, ih]

theorem mapGet_map_overwrite_self (m : List (String × String)) (k v : String)
    (h : hasKey m k = true) :
    mapGet (m.map (fun p => if p.1 == k then (k, v) else p)) k = some v := by
  induction m with
  | nil => simp [hasKey] at h
  | cons p tl ih =>
    by_cases hp : p.1 = k
    · simp [mapGet, hp]
    · have hb : (p.1 == k) = false := beq_eq_false_iff_ne.mpr hp
      have htl : hasKey tl k = true := by
        simpa [hasKey, hb] using h
      simp only [List.map_cons, mapGet, hb, if_false, Bool.false_eq_true]
      simpa using ih htl

theorem mapGet_mapSet_self (m : List (String × String)) (k v : String) :
    mapGet (mapSet m k v) k = some v := by
  unfold mapSet
  by_cases h : hasKey m k
  · rw [if_pos h]; exact mapGet_map_overwrite_self m k v h
  · rw [if_neg h]
    induction m with
    | nil => simp [mapGet]
    | cons p tl ih =>
      have hb : (p.1 == k) = false := by
        by_contra hcon
        have : (p.1 == k) = true := by
          cases hx : (p.1 == k) with
          | true => rfl
          | false => exact absurd hx hcon
        exact h (by simp [hasKey, this])
      have htl : ¬hasKey tl k = true := by
        intro hx
        exact h (by simp [hasKey, hx])
      simp [mapGet, hb, ih htl]

theorem mapGet_map_overwrite_ne (m : List (String × String)) (k v k' : String)
    (h : k' ≠ k) :
    mapGet (m.map (fun p => if p.1 == k then (k, v) else p)) k' = mapGet m k' := by
  induction m with
  | nil => rfl
  | cons p tl ih =>
    by_cases hp : p.1 = k
    · have hkk' : (k == k') = false :=
        beq_eq_false_iff_ne.mpr (fun hk : k = k' => h hk.symm)
      have hpk' : (p.1 == k') = false :=
        beq_eq_false_iff_ne.mpr (fun hk : p.1 = k' => h (hp ▸ hk).symm)
      simp only [List.map_cons, mapGet, beq_iff_eq.mpr hp, if_true, hkk', hpk',
        if_false, Bool.false_eq_true]
      simpa using ih
    · have hb : (p.1 == k) = false := beq_eq_false_iff_ne.mpr hp
      by_cases hpk : p.1 = k'
      · simp [mapGet, hp, hpk, h]
      · simp only [List.map_cons, mapGet, hb, if_false, Bool.false_eq_true,
          beq_eq_false_iff_ne.mpr hpk]
        simpa using ih

theorem mapGet_mapSet_ne (m : List (String × String)) (k v k' : String)
    (h : k' ≠ k) : mapGet (mapSet m k v) k' = mapGet m k' := by
  unfold mapSet
  by_cases hk : hasKey m k
  · rw [if_pos hk]; exact mapGet_map_overwrite_ne m k v k' h
  · rw [if_neg hk]; exact mapGet_append_single_ne m k v k' h

/-! ### Characterization of `walk` and `Build` -/

theorem walk_nil (fixed : List (String × String)) (maxCount : Int)
    (current : List (String × String)) (results : List JobSpec) :
    walk fixed maxCount [] current results =
      (if ((results ++ [mkSpec fixed current]).length : Int) > maxCount then
        Except.error (countErrMsg (results ++ [mkSpec fixed current]).length maxCount)
      else
        Except.ok (results ++ [mkSpec fixed current])) := rfl

theorem walk_cons (fixed : List (String × String)) (maxCount : Int) (key : String)
    (vals : List String) (rest : List (String × List String))
    (current : List (String × String)) (results : List JobSpec) :
    walk fixed maxCount ((key, vals) :: rest) current results =
      vals.foldl
        (fun acc v =>
          Except.bind acc (fun rs => walk fixed maxCount rest (mapSet current key v) rs))
        (Except.ok results) := rfl

theorem except_bind_ok {ε α β : Type} (a : α) (f : α → Except ε β) :
    Except.bind (Except.ok a : Except ε α) f = f a := rfl

theorem except_bind_error {ε α β : Type} (e : ε) (f : α → Except ε β) :
    Except.bind (Except.error e : Except ε α) f = Except.error e := rfl

theorem walk_foldl_error (fixed : List (String × String)) (maxCount : Int)
    (key : String) (rest : List (String × List String))
    (current : List (String × String)) (e : String) (vals : List String) :
    vals.foldl
      (fun acc v =>
        Except.bind acc (fun rs => walk fixed maxCount rest (mapSet current key v) rs))
      (Except.error e) = Except.error e := by
  induction vals with
  | nil => rfl
  | cons v vs ih => simpa [except_bind_error] using ih

theorem walkOk (fixed : List (String × String)) (maxCount : Int) :
    ∀ (choice : List (String × List String)) (current : List (String × String))
      (results : List JobSpec),
      ((results.length : Int) + prodLens choice ≤ maxCount) →
      walk fixed maxCount choice current results =
        Except.ok (results ++ (leaves choice current).map (mkSpec fixed)) := by
  intro choice
  induction choice with
  | nil =>
    intro current results h
    rw [walk_nil, if_neg]
    · simp [leaves]
    · simp only [prodLens] at h
      simp only [List.length_append, List.length_cons, List.length_nil]
      push_cast
      omega
  | cons p rest ih =>
    obtain ⟨key, vals⟩ := p
    intro current results h
    rw [walk_cons]
    have hgen : ∀ (vs : List String) (res : List JobSpec),
        ((res.length : Int) + vs.length * prodLens rest ≤ maxCount) →
        vs.foldl
          (fun acc v =>
            Except.bind acc (fun rs => walk fixed maxCount rest (mapSet current key v) rs))
          (Except.ok res) =
          Except.ok (res ++
            (vs.flatMap (fun v => leaves rest (mapSet current key v))).map
              (mkSpec fixed)) := by
      intro vs
      induction vs with
      | nil => intro res hres; simp
      | cons v vs ihv =>
        intro res hres
        have hP : (0 : Int) ≤ (vs.length : Int) * (prodLens rest : Int) := by
          positivity
        have hexp : (((vs.length : Int) + 1) * (prodLens rest : Int)) =
            (vs.length : Int) * (prodLens rest : Int) + (prodLens rest : Int) := by
          ring
        have hres' : (res.length : Int) +
            ((vs.length : Int) + 1) * (prodLens rest : Int) ≤ maxCount := by
          push_cast [List.length_cons] at hres
          linarith [hres]
        have hone : (res.length : Int) + prodLens rest ≤ maxCount := by
          rw [hexp] at hres'
          linarith
        have hstep := ih (mapSet current key v) res hone
        simp only [List.foldl_cons, except_bind_ok]
        rw [hstep]
        have hlen : ((res ++ (leaves rest (mapSet current key v)).map
            (mkSpec fixed)).length : Int) = (res.length : Int) + prodLens rest := by
          simp [leaves_length]
        rw [ihv _ (by
          rw [hlen]
          rw [hexp] at hres'
          linarith)]
        simp [List.flatMap_cons]
    have h' : ((results.length : Int) + vals.length * prodLens rest ≤ maxCount) := by
      simpa [prodLens] using h
    rw [hgen vals results h']
    simp [leaves]

theorem walkErr (fixed : List (String × String)) (maxCount : Int) :
    ∀ (choice : List (String × List String)) (current : List (String × String))
      (results : List JobSpec),
      (∀ p ∈ choice, p.2 ≠ ([] : List String)) →
      ((results.length : Int) + prodLens choice > maxCount) →
      ∃ K : Nat, walk fixed maxCount choice current results =
        Except.error (countErrMsg K maxCount) ∧ (K : Int) > maxCount := by
  intro choice
  induction choice with
  | nil =>
    intro current results _ h
    refine ⟨(results ++ [mkSpec fixed current]).length, ?he, ?hk⟩
    case he =>
      rw [walk_nil, if_pos]
      simp only [List.length_append, List.length_cons, List.length_nil]
      simp only [prodLens] at h
      push_cast at h ⊢
      omega
    case hk =>
      simp only [List.length_append, List.length_cons, List.length_nil]
      simp only [prodLens] at h
      push_cast at h ⊢
      omega
  | cons p rest ih =>
    obtain ⟨key, vals⟩ := p
    intro current results hne h
    have hrestne : ∀ p ∈ rest, p.2 ≠ ([] : List String) := by
      intro q hq
      exact hne q (List.mem_cons_of_mem _ hq)
    rw [walk_cons]
    have hvalsne : vals ≠ [] := hne (key, vals) (List.mem_cons_self _ _)
    have h' : ((results.length : Int) + vals.length * prodLens rest > maxCount) := by
      simpa [prodLens] using h
    clear h
    have hgen : ∀ (vs : List String) (res : List JobSpec), vs ≠ [] →
        ((res.length : Int) + vs.length * prodLens rest > maxCount) →
        ∃ K : Nat,
          vs.foldl
            (fun acc v =>
              Except.bind acc
                (fun rs => walk fixed maxCount rest (mapSet current key v) rs))
            (Except.ok res) = Except.error (countErrMsg K maxCount) ∧
          (K : Int) > maxCount := by
      intro vs
      induction vs with
      | nil => intro res hn; exact absurd rfl hn
      | cons v vs ihv =>
        intro res _ hres
        have hres' : (res.length : Int) +
            ((vs.length : Int) + 1) * (prodLens rest : Int) > maxCount := by
          push_cast [List.length_cons] at hres
          linarith [hres]
        simp only [List.foldl_cons, except_bind_ok]
        rcases le_or_lt ((res.length : Int) + prodLens rest) maxCount with hle | hgt
        · have hstep := walkOk fixed maxCount rest (mapSet current key v) res hle
          rw [hstep]
          have hlen : ((res ++ (leaves rest (mapSet current key v)).map
              (mkSpec fixed)).length : Int) = (res.length : Int) + prodLens rest := by
            simp [leaves_length]
          cases vs with
          | nil =>
            exfalso
            simp only [List.length_nil] at hres'
            push_cast at hres'
            linarith
          | cons w ws =>
            refine ihv _ (by simp) ?hlt
            rw [hlen]
            have hexp : (((w :: ws).length : Int) + 1) * (prodLens rest : Int) =
                ((w :: ws).length : Int) * (prodLens rest : Int) + (prodLens rest : Int) := by
              ring
            rw [hexp] at hres'
            linarith
        · obtain ⟨K, hK, hKgt⟩ := ih (mapSet current key v) res hrestne hgt
          rw [hK, walk_foldl_error]
          exact ⟨K, rfl, hKgt⟩
    exact hgen vals results hvalsne h'

theorem checkChoices_ok (choice : List (String × List String))
    (h : ∀ p ∈ choice, p.2 ≠ ([] : List String)) :
    checkChoices choice = Except.ok (choice.map Prod.fst) := by
  induction choice with
  | nil => rfl
  | cons p rest ih =>
    obtain ⟨k, vals⟩ := p
    have hvals : vals ≠ [] := h (k, vals) (List.mem_cons_self _ _)
    have hrest : ∀ q ∈ rest, q.2 ≠ ([] : List String) := fun q hq =>
      h q (List.mem_cons_of_mem _ hq)
    simp only [checkChoices, List.map_cons]
    rw [if_neg (by simpa [List.isEmpty_iff] using hvals), ih hrest]

/-- The output of `Build` on a non-degenerate, within-budget selection:
the cartesian product in nesting order over the keys as iterated. -/
theorem buildOk (choice : List (String × List String))
    (fixed : List (String × String)) (maxCount : Int)
    (hne : ∀ p ∈ choice, p.2 ≠ ([] : List String))
    (hchoice : choice ≠ [])
    (hfit : (prodLens choice : Int) ≤ maxCount) :
    Build ⟨choice, fixed⟩ maxCount =
      Except.ok ((leaves choice []).map (mkSpec fixed)) := by
  have hw := walkOk fixed maxCount choice [] [] (by simpa using hfit)
  simp only [Build, checkChoices_ok choice hne]
  rw [if_neg (by simpa [List.isEmpty_iff] using hchoice)]
  simpa using hw

/-- The output of `Build` on a non-degenerate, over-budget selection:
a counting error naming a generated count that exceeds the limit. -/
theorem buildErr (choice : List (String × List String))
    (fixed : List (String × String)) (maxCount : Int)
    (hne : ∀ p ∈ choice, p.2 ≠ ([] : List String))
    (hchoice : choice ≠ [])
    (hover : (prodLens choice : Int) > maxCount) :
    ∃ K : Nat, Build ⟨choice, fixed⟩ maxCount =
      Except.error (countErrMsg K maxCount) ∧ (K : Int) > maxCount := by
  obtain ⟨K, hK, hKgt⟩ := walkErr fixed maxCount choice [] [] hne (by simpa using hover)
  refine ⟨K, ?he, hKgt⟩
  simp only [Build, checkChoices_ok choice hne]
  rw [if_neg (by simpa [List.isEmpty_iff] using hchoice)]
  exact hK

/-! ### `leaves` versus the spec-side cartesian order -/

theorem mapSet_of_hasKey_false (m : List (String × String)) (k v : String)
    (h : hasKey m k = false) : mapSet m k v = m ++ [(k, v)] := by
  unfold mapSet
  rw [if_neg (by simp [h])]

theorem hasKey_append_single (m : List (String × String)) (k v k' : String) :
    hasKey (m ++ [(k, v)]) k' = (hasKey m k' || (k == k')) := by
  induction m with
  | nil => simp [hasKey]
  | cons p tl ih => simp [hasKey, ih, Bool.or_assoc]

theorem leaves_eq_specCartesian :
    ∀ (choice : List (String × List String)) (current : List (String × String)),
      (choice.map Prod.fst).Nodup →
      (∀ k ∈ choice.map Prod.fst, hasKey current k = false) →
      leaves choice current = (specCartesian choice).map (fun asg => current ++ asg) := by
  intro choice
  induction choice with
  | nil => intro current _ _; simp [leaves, specCartesian]
  | cons p rest ih =>
    obtain ⟨key, vals⟩ := p
    intro current hnodup hfresh
    have hkeyfresh : hasKey current key = false :=
      hfresh key (by simp)
    have hnodup' : (rest.map Prod.fst).Nodup := (List.nodup_cons.mp hnodup).2
    have hkeynotin : key ∉ rest.map Prod.fst := (List.nodup_cons.mp hnodup).1
    simp only [leaves, specCartesian]
    rw [List.map_flatMap]
    congr 1
    funext v
    have hfresh' : ∀ k ∈ rest.map Prod.fst,
        hasKey (mapSet current key v) k = false := by
      intro k hk
      rw [mapSet_of_hasKey_false current key v hkeyfresh, hasKey_append_single]
      have h1 : hasKey current k = false := hfresh k (by simp [hk])
      have h2 : (key == k) = false :=
        beq_eq_false_iff_ne.mpr (fun he => hkeynotin (he ▸ hk))
      simp [h1, h2]
    rw [ih (mapSet current key v) hnodup' hfresh']
    rw [mapSet_of_hasKey_false current key v hkeyfresh]
    rw [List.map_map]
    congr 1
    funext asg
    simp

/-! ### Membership in `specCartesian` -/

theorem specCartesian_mem_keys :
    ∀ (choice : List (String × List String)) (asg : List (String × String)),
      asg ∈ specCartesian choice → asg.map Prod.fst = choice.map Prod.fst := by
  intro choice
  induction choice with
  | nil => intro asg h; simp [specCartesian] at h; simp [h]
  | cons p rest ih =>
    obtain ⟨key, vals⟩ := p
    intro asg h
    simp only [specCartesian, List.mem_flatMap, List.mem_map] at h
    obtain ⟨v, _, asg', hasg', rfl⟩ := h
    simp [ih asg' hasg']

theorem specCartesian_mem_values :
    ∀ (choice : List (String × List String)) (asg : List (String × String)),
      asg ∈ specCartesian choice →
      ∀ k vs, (k, vs) ∈ choice → ∃ v ∈ vs, (k, v) ∈ asg := by
  intro choice
  induction choice with
  | nil => intro asg _ k vs h; simp at h
  | cons p rest ih =>
    obtain ⟨key, vals⟩ := p
    intro asg h k vs hmem
    simp only [specCartesian, List.mem_flatMap, List.mem_map] at h
    obtain ⟨v, hv, asg', hasg', rfl⟩ := h
    rcases List.mem_cons.mp hmem with heq | htl
    · obtain ⟨rfl, rfl⟩ := Prod.mk.injEq .. ▸ heq
      · exact ⟨v, hv, by simp⟩
    · obtain ⟨w, hw, hmemw⟩ := ih asg' hasg' k vs htl
      exact ⟨w, hw, by simp [hmemw]⟩

/-! ### Lookups in a folded assignment -/

theorem mapGet_foldl_not_mem (asg : List (String × String)) (k : String)
    (h : k ∉ asg.map Prod.fst) :
    ∀ m0 : List (String × String),
      mapGet (asg.foldl (fun m kv => mapSet m kv.1 kv.2) m0) k = mapGet m0 k := by
  induction asg with
  | nil => intro m0; rfl
  | cons kv tl ih =>
    intro m0
    have hk1 : k ≠ kv.1 := by
      intro he
      exact h (by simp [he.symm])
    have htl : k ∉ tl.map Prod.fst := by
      intro hx
      exact h (by simp [hx])
    rw [List.foldl_cons, ih htl, mapGet_mapSet_ne _ _ _ _ hk1]

theorem mapGet_foldl_mem (asg : List (String × String)) (k v : String)
    (hnodup : (asg.map Prod.fst).Nodup) (hmem : (k, v) ∈ asg) :
    ∀ m0 : List (String × String),
      mapGet (asg.foldl (fun m kv => mapSet m kv.1 kv.2) m0) k = some v := by
  induction asg with
  | nil => simp at hmem
  | cons kv tl ih =>
    intro m0
    rw [List.foldl_cons]
    rcases List.mem_cons.mp hmem with heq | htl
    · have hknotin : k ∉ tl.map Prod.fst := by
        have := (List.nodup_cons.mp hnodup).1
        simpa [← heq] using this
      rw [mapGet_foldl_not_mem tl k hknotin]
      rw [← heq]
      exact mapGet_mapSet_self m0 k v
    · exact ih (List.nodup_cons.mp hnodup).2 htl (mapSet m0 kv.1 kv.2)

/-! ## Claim theorems -/

/-- C1: for every selection with at least one choice parameter, each with a
non-zero number of candidate values, whose dimension-size product fits in
`maxCount`, `Build` returns exactly `s1*...*sN` JobSpecs and no error;
every returned JobSpec agrees with the fixed values on every name outside
the choice names, and on a name that is also a choice name the JobSpec
carries one of that name's candidate (choice) values. -/
theorem claim_C1 (choice : List (String × List String))
    (fixed : List (String × String)) (maxCount : Int)
    (hchoice : choice ≠ [])
    (hne : ∀ p ∈ choice, p.2 ≠ ([] : List String))
    (hnodup : (choice.map Prod.fst).Nodup)
    (hfit : (prodLens choice : Int) ≤ maxCount) :
    ∃ l, Build ⟨choice, fixed⟩ maxCount = Except.ok l ∧
      l.length = prodLens choice ∧
      ∀ s ∈ l,
        (∀ k, k ∉ choice.map Prod.fst → mapGet s.Params k = mapGet fixed k) ∧
        (∀ k vs, (k, vs) ∈ choice → ∃ v ∈ vs, mapGet s.Params k = some v) := by
  refine ⟨(leaves choice []).map (mkSpec fixed),
    buildOk choice fixed maxCount hne hchoice hfit, ?hlen, ?hmem⟩
  case hlen => simp [leaves_length]
  case hmem =>
    intro s hs
    rw [leaves_eq_specCartesian choice [] hnodup (fun k _ => rfl)] at hs
    simp only [List.nil_append, List.map_map, List.mem_map, Function.comp] at hs
    obtain ⟨asg, hasg, rfl⟩ := hs
    have hkeys : asg.map Prod.fst = choice.map Prod.fst :=
      specCartesian_mem_keys choice asg hasg
    constructor
    · intro k hk
      have hnotin : k ∉ asg.map Prod.fst := by rw [hkeys]; exact hk
      simpa [mkSpec, copyMap] using mapGet_foldl_not_mem asg k hnotin fixed
    · intro k vs hkvs
      obtain ⟨v, hv, hmem⟩ := specCartesian_mem_values choice asg hasg k vs hkvs
      refine ⟨v, hv, ?hv2⟩
      have hnodup' : (asg.map Prod.fst).Nodup := by rw [hkeys]; exact hnodup
      simpa [mkSpec, copyMap] using mapGet_foldl_mem asg k v hnodup' hmem fixed

/-- C1 witness: the concrete selection of spec §8 (`REGION`×`ACTION` with a
fixed `REASON`) satisfies every hypothesis of `claim_C1`. -/
theorem claim_C1_witness :
    ∃ l, Build ⟨[("REGION", ["US", "EU"]), ("ACTION", ["drain", "reload"])],
        [("REASON", "maintenance")]⟩ 20 = Except.ok l ∧
      l.length = prodLens [("REGION", ["US", "EU"]), ("ACTION", ["drain", "reload"])] ∧
      ∀ s ∈ l,
        (∀ k, k ∉ ([("REGION", ["US", "EU"]), ("ACTION", ["drain", "reload"])].map
            Prod.fst) →
          mapGet s.Params k = mapGet [("REASON", "maintenance")] k) ∧
        (∀ k vs, (k, vs) ∈ [("REGION", ["US", "EU"]), ("ACTION", ["drain", "reload"])] →
          ∃ v ∈ vs, mapGet s.Params k = some v) :=
  claim_C1 [("REGION", ["US", "EU"]), ("ACTION", ["drain", "reload"])]
    [("REASON", "maintenance")] 20 (by decide) (by decide) (by decide) (by decide)

/-- C2 counterexample: `Build` reads its choice names by ranging over a Go
map, whose iteration order is unspecified; two runs over the same map may
observe the two orders below, which are permutations of one another with
identical fixed values, and the resulting JobSpec lists differ in order
(the second JobSpec carries `A=a1` in one and `A=a2` in the other), so the
output order is not determined by the input mappings alone. -/
theorem claim_C2_counterexample :
    ([("A", ["a1", "a2"]), ("B", ["b1", "b2"])] :
        List (String × List String)).Perm [("B", ["b1", "b2"]), ("A", ["a1", "a2"])] ∧
    (Build ⟨[("A", ["a1", "a2"]), ("B", ["b1", "b2"])], []⟩ 20).map
        (fun l => l.map (fun s => mapGet s.Params "A")) =
      Except.ok [some "a1", some "a1", some "a2", some "a2"] ∧
    (Build ⟨[("B", ["b1", "b2"]), ("A", ["a1", "a2"])], []⟩ 20).map
        (fun l => l.map (fun s => mapGet s.Params "A")) =
      Except.ok [some "a1", some "a2", some "a1", some "a2"] := by
  refine ⟨?hperm, by decide, by decide⟩
  decide

/-- C2 amended: with the key iteration order made an explicit part of the
input, `Build` is deterministic and its output order is exactly the
cartesian nesting order over the choice names in iteration order, each
name's candidate values enumerated in the order supplied by the caller. -/
theorem claim_C2_amended (choice : List (String × List String))
    (fixed : List (String × String)) (maxCount : Int)
    (hchoice : choice ≠ [])
    (hne : ∀ p ∈ choice, p.2 ≠ ([] : List String))
    (hnodup : (choice.map Prod.fst).Nodup)
    (hfit : (prodLens choice : Int) ≤ maxCount) :
    Build ⟨choice, fixed⟩ maxCount =
      Except.ok ((specCartesian choice).map (mkSpec fixed)) := by
  rw [buildOk choice fixed maxCount hne hchoice hfit,
    leaves_eq_specCartesian choice [] hnodup (fun k _ => rfl)]
  simp [List.map_map, Function.comp]

/-- C2 amended witness: the spec §8 scenario, in iteration order
`REGION, ACTION`. -/
theorem claim_C2_amended_witness :
    Build ⟨[("REGION", ["US", "EU"]), ("ACTION", ["drain", "reload"])],
        [("REASON", "maintenance")]⟩ 20 =
      Except.ok ((specCartesian
        [("REGION", ["US", "EU"]), ("ACTION", ["drain", "reload"])]).map
          (mkSpec [("REASON", "maintenance")])) :=
  claim_C2_amended [("REGION", ["US", "EU"]), ("ACTION", ["drain", "reload"])]
    [("REASON", "maintenance")] 20 (by decide) (by decide) (by decide) (by decide)

/-- C4 counterexample: the degenerate no-choice path returns the single
fixed-values JobSpec without consulting `maxCount` at all, so a selection
with no choice parameters and `maxCount = 0` has permutation count
`1 > maxCount` yet `Build` succeeds. -/
theorem claim_C4_counterexample :
    (prodLens ([] : List (String × List String)) : Int) > 0 ∧
    Build ⟨[], []⟩ 0 = Except.ok [⟨[]⟩] := by
  refine ⟨by decide, by decide⟩

/-- C4 amended: for every selection with at least one choice parameter
(each with a non-zero number of candidate values) whose permutation count
exceeds `maxCount`, `Build` fails with the counting error naming a
generated count that exceeds the configured limit, and returns no JobSpec
list at all. -/
theorem claim_C4 (choice : List (String × List String))
    (fixed : List (String × String)) (maxCount : Int)
    (hchoice : choice ≠ [])
    (hne : ∀ p ∈ choice, p.2 ≠ ([] : List String))
    (hover : (prodLens choice : Int) > maxCount) :
    ∃ K : Nat, Build ⟨choice, fixed⟩ maxCount =
      Except.error (countErrMsg K maxCount) ∧ (K : Int) > maxCount :=
  buildErr choice fixed maxCount hne hchoice hover

/-- C4 witness: two candidate values against a limit of 1. -/
theorem claim_C4_witness :
    ∃ K : Nat, Build ⟨[("A", ["a1", "a2"])], []⟩ 1 =
      Except.error (countErrMsg K 1) ∧ (K : Int) > 1 :=
  claim_C4 [("A", ["a1", "a2"])] [] 1 (by decide) (by decide) (by decide)

/-! ### Retry-policy lemmas for the polling loops -/

theorem rq_swallow : ∀ (k c : Nat), c + k ≤ 4 →
    ∀ (e : String) (rest : List QPoll),
      resolveQueueLoop c (List.replicate k (QPoll.fetchErr e) ++ rest) =
        resolveQueueLoop (c + k) rest := by
  intro k
  induction k with
  | zero => intro c _ e rest; simp
  | succ n ih =>
    intro c h e rest
    rw [List.replicate_succ, List.cons_append]
    simp only [resolveQueueLoop]
    rw [if_neg (by omega)]
    rw [ih (c + 1) (by omega) e rest]
    congr 1
    omega

theorem rq_fatal (c : Nat) (h : c + 1 ≥ 5) (e : String) (rest : List QPoll) :
    resolveQueueLoop c (QPoll.fetchErr e :: rest) =
      RQOutcome.failed ("resolve queue failed after " ++ toString (c + 1) ++
        " retries: " ++ e) := by
  simp only [resolveQueueLoop]
  rw [if_pos h]

theorem pb_swallow : ∀ (k c : Nat), c + k ≤ 4 →
    ∀ (e : String) (rest : List BPoll),
      pollBuildLoop c (List.replicate k (BPoll.fetchErr e) ++ rest) =
        pollBuildLoop (c + k) rest := by
  intro k
  induction k with
  | zero => intro c _ e rest; simp
  | succ n ih =>
    intro c h e rest
    rw [List.replicate_succ, List.cons_append]
    simp only [pollBuildLoop]
    rw [if_neg (by omega)]
    rw [ih (c + 1) (by omega) e rest]
    congr 1
    omega

theorem pb_fatal (c : Nat) (h : c + 1 ≥ 5) (e : String) (rest : List BPoll) :
    pollBuildLoop c (BPoll.fetchErr e :: rest) =
      PBOutcome.failed ("poll build failed after " ++ toString (c + 1) ++
        " retries: " ++ e) := by
  simp only [pollBuildLoop]
  rw [if_pos h]

/-- C3 counterexample: in both loops, five consecutive transient failures
from a fresh counter are already fatal — the fifth failure produces the
terminal error even though the very next tick would have succeeded — so
the fifth failure is not swallowed and there is no sixth. -/
theorem claim_C3_counterexample :
    resolveQueueLoop 0
        (List.replicate 5 (QPoll.fetchErr "boom") ++
          [QPoll.fetched ⟨some ⟨7, "http://jenkins/job/x/7/"⟩, false⟩]) =
      RQOutcome.failed "resolve queue failed after 5 retries: boom" ∧
    pollBuildLoop 0
        (List.replicate 5 (BPoll.fetchErr "boom") ++ [BPoll.fetched false "SUCCESS"]) =
      PBOutcome.failed "poll build failed after 5 retries: boom" := by
  refine ⟨by decide, by decide⟩

/-- C3 amended: during queue resolution and during build polling, up to
four consecutive transient lookup failures are swallowed and retried; the
fifth consecutive failure is fatal, producing a terminal error embedding
the failure count (5); and the consecutive-failure counter resets to zero
on any successful lookup. -/
theorem claim_C3_amended :
    (∀ k : Nat, k ≤ 4 → ∀ (e : String) (rest : List QPoll),
      resolveQueueLoop 0 (List.replicate k (QPoll.fetchErr e) ++ rest) =
        resolveQueueLoop k rest) ∧
    (∀ (e : String) (rest : List QPoll),
      resolveQueueLoop 0 (List.replicate 5 (QPoll.fetchErr e) ++ rest) =
        RQOutcome.failed ("resolve queue failed after " ++ toString 5 ++
          " retries: " ++ e)) ∧
    (∀ (n : Nat) (q : QueueResp) (rest : List QPoll),
      q.cancelled = false → (∀ ex, q.executable = some ex → ex.url = "") →
      resolveQueueLoop n (QPoll.fetched q :: rest) = resolveQueueLoop 0 rest) ∧
    (∀ k : Nat, k ≤ 4 → ∀ (e : String) (rest : List BPoll),
      pollBuildLoop 0 (List.replicate k (BPoll.fetchErr e) ++ rest) =
        pollBuildLoop k rest) ∧
    (∀ (e : String) (rest : List BPoll),
      pollBuildLoop 0 (List.replicate 5 (BPoll.fetchErr e) ++ rest) =
        PBOutcome.failed ("poll build failed after " ++ toString 5 ++
          " retries: " ++ e)) ∧
    (∀ (n : Nat) (s : String) (rest : List BPoll),
      pollBuildLoop n (BPoll.fetched true s :: rest) = pollBuildLoop 0 rest) := by
  refine ⟨?rq1, ?rq2, ?rq3, ?pb1, ?pb2, ?pb3⟩
  case rq1 =>
    intro k hk e rest
    simpa using rq_swallow k 0 (by omega) e rest
  case rq2 =>
    intro e rest
    have h4 : List.replicate 5 (QPoll.fetchErr e) ++ rest =
        List.replicate 4 (QPoll.fetchErr e) ++ (QPoll.fetchErr e :: rest) := by
      simp [List.replicate_succ']
    rw [h4]
    have := rq_swallow 4 0 (by omega) e (QPoll.fetchErr e :: rest)
    rw [this]
    simpa using rq_fatal 4 (by omega) e rest
  case rq3 =>
    intro n q rest hcan hex
    simp only [resolveQueueLoop]
    rw [if_neg (by simp [hcan])]
    cases hq : q.executable with
    | none => rfl
    | some ex =>
      have hurl : ex.url = "" := hex ex hq
      simp [hurl]
  case pb1 =>
    intro k hk e rest
    simpa using pb_swallow k 0 (by omega) e rest
  case pb2 =>
    intro e rest
    have h4 : List.replicate 5 (BPoll.fetchErr e) ++ rest =
        List.replicate 4 (BPoll.fetchErr e) ++ (BPoll.fetchErr e :: rest) := by
      simp [List.replicate_succ']
    rw [h4]
    have := pb_swallow 4 0 (by omega) e (BPoll.fetchErr e :: rest)
    rw [this]
    simpa using pb_fatal 4 (by omega) e rest
  case pb3 =>
    intro n s rest
    simp [pollBuildLoop]

/-- C3 amended witness: three failures then a resolving fetch succeed; a
cancelled-free pending fetch resets the counter. -/
theorem claim_C3_amended_witness :
    resolveQueueLoop 0
        (List.replicate 3 (QPoll.fetchErr "x") ++
          [QPoll.fetched ⟨some ⟨9, "http://jenkins/job/y/9/"⟩, false⟩]) =
      resolveQueueLoop 3 [QPoll.fetched ⟨some ⟨9, "http://jenkins/job/y/9/"⟩, false⟩] ∧
    resolveQueueLoop 4 [QPoll.fetched ⟨none, false⟩, QPoll.fetchErr "x"] =
      resolveQueueLoop 0 [QPoll.fetchErr "x"] :=
  ⟨claim_C3_amended.1 3 (by decide) "x" _,
    claim_C3_amended.2.2.1 4 ⟨none, false⟩ [QPoll.fetchErr "x"] rfl
      (fun ex hex => by simp at hex)⟩

/-- C5: a completed build's result string maps `SUCCESS→Success`,
`ABORTED→Aborted`, anything else (including the empty string) to
`Failed`; and when the remote reports completion with an empty result
string, `PollBuild` synthesizes `"UNKNOWN"` and returns it on its
success (non-error) path. -/
theorem claim_C5 :
    mapResult "SUCCESS" = RunSuccess ∧
    mapResult "ABORTED" = RunAborted ∧
    (∀ s : String, s ≠ "SUCCESS" → s ≠ "ABORTED" → mapResult s = RunFailed) ∧
    (∀ (n : Nat) (rest : List BPoll),
      pollBuildLoop n (BPoll.fetched false "" :: rest) =
        PBOutcome.completed "UNKNOWN") := by
  refine ⟨rfl, rfl, ?hdef, ?hunk⟩
  case hdef =>
    intro s h1 h2
    simp [mapResult, h1, h2]
  case hunk =>
    intro n rest
    simp [pollBuildLoop]

/-- C5 witness: the fall-through case at `"UNSTABLE"` and the empty
string both map to `Failed`. -/
theorem claim_C5_witness :
    mapResult "UNSTABLE" = RunFailed ∧ mapResult "" = RunFailed ∧
    pollBuildLoop 0 [BPoll.fetched false ""] = PBOutcome.completed "UNKNOWN" :=
  ⟨claim_C5.2.2.1 "UNSTABLE" (by decide) (by decide),
    claim_C5.2.2.1 "" (by decide) (by decide),
    claim_C5.2.2.2 0 []⟩

/-- C6: when a job's trigger call fails, the worker emits exactly the
claim event and one terminal `Error` event (`done=true`) for that index —
the trigger is not retried — and no event for the index carries a queue
locator, a build locator, or the `Running` state. -/
theorem claim_C6 (idx : Int) (e : String) (resolve : Except String (String × Int))
    (poll : Except String String) :
    runIndex idx (Except.error e) resolve poll =
      [{ index := idx, state := RunQueued },
       { index := idx, state := RunError, err := some e, done := true }] ∧
    ((runIndex idx (Except.error e) resolve poll).filter (fun u => u.done)).length = 1 ∧
    (∀ u ∈ runIndex idx (Except.error e) resolve poll,
      u.done = true → u.state = RunError ∧ u.err = some e) ∧
    (∀ u ∈ runIndex idx (Except.error e) resolve poll,
      u.queueURL = "" ∧ u.buildURL = "" ∧ u.state ≠ RunRunning) := by
  refine ⟨rfl, ?hone, ?hterm, ?hnoloc⟩
  case hone => simp [runIndex]
  case hterm =>
    intro u hu hdone
    simp only [runIndex, List.mem_cons, List.not_mem_nil, or_false] at hu
    rcases hu with rfl | rfl
    · simp at hdone
    · exact ⟨rfl, rfl⟩
  case hnoloc =>
    intro u hu
    simp only [runIndex, List.mem_cons, List.not_mem_nil, or_false] at hu
    rcases hu with rfl | rfl
    · refine ⟨rfl, rfl, ?hq⟩
      intro hc
      have hcontr : RunQueued = RunRunning := hc
      exact absurd hcontr (by decide)
    · refine ⟨rfl, rfl, ?he⟩
      intro hc
      have hcontr : RunError = RunRunning := hc
      exact absurd hcontr (by decide)

/-! ### Field-merge lemmas for `applyFields` -/

theorem applyFields_state (r : RunRecord) (u : RunUpdate) (now : Nat) :
    (applyFields r u now).state = u.state := by
  unfold applyFields
  cases u.err <;>
    by_cases h1 : u.queueURL = "" <;> by_cases h2 : u.buildURL = "" <;>
    by_cases h3 : u.buildNumber = 0 <;> by_cases h4 : u.result = "" <;>
    by_cases h5 : u.done = true <;>
    simp [h1, h2, h3, h4, h5]

theorem applyFields_queueURL (r : RunRecord) (u : RunUpdate) (now : Nat) :
    (applyFields r u now).queueURL =
      (if u.queueURL = "" then r.queueURL else u.queueURL) := by
  unfold applyFields
  cases u.err <;>
    by_cases h1 : u.queueURL = "" <;> by_cases h2 : u.buildURL = "" <;>
    by_cases h3 : u.buildNumber = 0 <;> by_cases h4 : u.result = "" <;>
    by_cases h5 : u.done = true <;>
    simp [h1, h2, h3, h4, h5]

theorem applyFields_buildURL (r : RunRecord) (u : RunUpdate) (now : Nat) :
    (applyFields r u now).buildURL =
      (if u.buildURL = "" then r.buildURL else u.buildURL) := by
  unfold applyFields
  cases u.err <;>
    by_cases h1 : u.queueURL = "" <;> by_cases h2 : u.buildURL = "" <;>
    by_cases h3 : u.buildNumber = 0 <;> by_cases h4 : u.result = "" <;>
    by_cases h5 : u.done = true <;>
    simp [h1, h2, h3, h4, h5]

theorem applyFields_buildNumber (r : RunRecord) (u : RunUpdate) (now : Nat) :
    (applyFields r u now).buildNumber =
      (if u.buildNumber = 0 then r.buildNumber else u.buildNumber) := by
  unfold applyFields
  cases u.err <;>
    by_cases h1 : u.queueURL = "" <;> by_cases h2 : u.buildURL = "" <;>
    by_cases h3 : u.buildNumber = 0 <;> by_cases h4 : u.result = "" <;>
    by_cases h5 : u.done = true <;>
    simp [h1, h2, h3, h4, h5]

theorem applyFields_result (r : RunRecord) (u : RunUpdate) (now : Nat) :
    (applyFields r u now).result =
      (if u.result = "" then r.result else u.result) := by
  unfold applyFields
  cases u.err <;>
    by_cases h1 : u.queueURL = "" <;> by_cases h2 : u.buildURL = "" <;>
    by_cases h3 : u.buildNumber = 0 <;> by_cases h4 : u.result = "" <;>
    by_cases h5 : u.done = true <;>
    simp [h1, h2, h3, h4, h5]

theorem applyFields_err (r : RunRecord) (u : RunUpdate) (now : Nat) :
    (applyFields r u now).err =
      (match u.err with
      | some e => e
      | none => r.err) := by
  unfold applyFields
  cases u.err <;>
    by_cases h1 : u.queueURL = "" <;> by_cases h2 : u.buildURL = "" <;>
    by_cases h3 : u.buildNumber = 0 <;> by_cases h4 : u.result = "" <;>
    by_cases h5 : u.done = true <;>
    simp [h1, h2, h3, h4, h5]

/-- C7: folding a `RunUpdate` into the record at its index overwrites only
non-empty/non-zero fields: an empty `QueueURL`, empty `BuildURL`, zero
`BuildNumber`, empty `Result` or nil `Err` each leave the previously
captured field of that record unchanged — in particular a later `Running`
event does not erase a queue locator captured earlier. -/
theorem claim_C7 (records : List RunRecord) (u : RunUpdate) (now : Nat)
    (r : RunRecord)
    (h0 : 0 ≤ u.index) (h1 : u.index < (records.length : Int))
    (hr : records.get? u.index.toNat = some r) :
    ∃ r', (applyRunUpdate records u now).get? u.index.toNat = some r' ∧
      (u.queueURL = "" → r'.queueURL = r.queueURL) ∧
      (u.buildURL = "" → r'.buildURL = r.buildURL) ∧
      (u.buildNumber = 0 → r'.buildNumber = r.buildNumber) ∧
      (u.result = "" → r'.result = r.result) ∧
      (u.err = none → r'.err = r.err) := by
  refine ⟨applyFields r u now, ?hget, ?hq, ?hb, ?hn, ?hres, ?herr⟩
  case hget =>
    unfold applyRunUpdate
    rw [if_neg (by omega), hr]
    show (records.set u.index.toNat (applyFields r u now)).get? u.index.toNat =
      some (applyFields r u now)
    have hlt : u.index.toNat < records.length := by omega
    rw [List.get?_eq_getElem?]
    exact List.getElem?_set_eq_of_lt _ hlt
  case hq => intro h; rw [applyFields_queueURL, if_pos h]
  case hb => intro h; rw [applyFields_buildURL, if_pos h]
  case hn => intro h; rw [applyFields_buildNumber, if_pos h]
  case hres => intro h; rw [applyFields_result, if_pos h]
  case herr => intro h; rw [applyFields_err, h]

/-- C7 witness: a `Running`-style update with an empty queue locator does
not erase a previously captured one. -/
theorem claim_C7_witness :
    ∃ r', (applyRunUpdate [c7rec] c7upd 7).get? c7upd.index.toNat = some r' ∧
      (c7upd.queueURL = "" → r'.queueURL = c7rec.queueURL) ∧
      (c7upd.buildURL = "" → r'.buildURL = c7rec.buildURL) ∧
      (c7upd.buildNumber = 0 → r'.buildNumber = c7rec.buildNumber) ∧
      (c7upd.result = "" → r'.result = c7rec.result) ∧
      (c7upd.err = none → r'.err = c7rec.err) :=
  claim_C7 [c7rec] c7upd 7 c7rec (by decide) (by decide) (by decide)

/-- C10: a `RunUpdate` whose index is negative or not below the number of
run records leaves every record unchanged — a silent no-op, never an
out-of-bounds access. -/
theorem claim_C10 (records : List RunRecord) (u : RunUpdate) (now : Nat)
    (h : u.index < 0 ∨ (records.length : Int) ≤ u.index) :
    applyRunUpdate records u now = records := by
  unfold applyRunUpdate
  rw [if_pos h]

/-- C10 witness: an index one past the end, and a negative index. -/
theorem claim_C10_witness :
    applyRunUpdate [{ index := 0, spec := ⟨[]⟩, state := RunPlanned }]
        { index := 1, state := RunQueued } 3 =
      [{ index := 0, spec := ⟨[]⟩, state := RunPlanned }] ∧
    applyRunUpdate [{ index := 0, spec := ⟨[]⟩, state := RunPlanned }]
        { index := -1, state := RunQueued } 3 =
      [{ index := 0, spec := ⟨[]⟩, state := RunPlanned }] :=
  ⟨claim_C10 _ _ 3 (by decide), claim_C10 _ _ 3 (by decide)⟩

/-- C8: the retry-on-failed-subset operation derives exactly the specs of
the records whose terminal state is `Failed`, `Aborted` or `Error`, in
record (index) order; when that subset is empty the model — including the
prior permutation batch — is left untouched; and for the five-state
scenario `[Success, Failed, Error, Aborted, Success]` the derived subset
is exactly the specs at indices 1, 2, 3. -/
theorem claim_C8 (m : TuiModel) :
    ((m.runRecords.filter (fun r => isRetryState r.state)) = [] →
      rebuildFailedOnly m = m) ∧
    ((m.runRecords.filter (fun r => isRetryState r.state)) ≠ [] →
      (rebuildFailedOnly m).permutations =
        (m.runRecords.filter (fun r => isRetryState r.state)).map (fun r => r.spec) ∧
      (rebuildFailedOnly m).runRecords = m.runRecords) ∧
    (∀ r0 r1 r2 r3 r4 : RunRecord,
      m.runRecords = [r0, r1, r2, r3, r4] →
      r0.state = RunSuccess → r1.state = RunFailed → r2.state = RunError →
      r3.state = RunAborted → r4.state = RunSuccess →
      (rebuildFailedOnly m).permutations = [r1.spec, r2.spec, r3.spec]) := by
  refine ⟨?hempty, ?hfull, ?hscen⟩
  case hempty =>
    intro h
    unfold rebuildFailedOnly
    simp [h]
  case hfull =>
    intro h
    unfold rebuildFailedOnly
    have hlen : ((m.runRecords.filter (fun r => isRetryState r.state)).map
        (fun r => r.spec)).length > 0 := by
      simp [List.length_pos, h]
    rw [if_pos hlen]
    exact ⟨rfl, rfl⟩
  case hscen =>
    intro r0 r1 r2 r3 r4 hrecs h0 h1 h2 h3 h4
    have hs : isRetryState RunSuccess = false := by decide
    have hf : isRetryState RunFailed = true := by decide
    have he : isRetryState RunError = true := by decide
    have ha : isRetryState RunAborted = true := by decide
    unfold rebuildFailedOnly
    rw [hrecs]
    simp [List.filter, h0, h1, h2, h3, h4, hs, hf, he, ha]

/-- C8 witness: the concrete five-state scenario derives the specs at
indices 1, 2, 3. -/
theorem claim_C8_witness :
    (rebuildFailedOnly ⟨c8records, [], ""⟩).permutations =
      [(⟨[("P", "v1")]⟩ : JobSpec), ⟨[("P", "v2")]⟩, ⟨[("P", "v3")]⟩] :=
  (claim_C8 ⟨c8records, [], ""⟩).2.2
    { index := 0, spec := ⟨[("P", "v0")]⟩, state := RunSuccess }
    { index := 1, spec := ⟨[("P", "v1")]⟩, state := RunFailed }
    { index := 2, spec := ⟨[("P", "v2")]⟩, state := RunError }
    { index := 3, spec := ⟨[("P", "v3")]⟩, state := RunAborted }
    { index := 4, spec := ⟨[("P", "v4")]⟩, state := RunSuccess }
    rfl rfl rfl rfl rfl rfl

/-- C9 counterexample: when the crumb issuer replies 404 the crumb stays
unset, so each of two successive trigger calls on the same fresh client
performs the handshake — it is performed twice for one client instance,
refuting "at most once per client instance" taken literally. -/
theorem claim_C9_counterexample :
    ensureCrumbSeq ⟨none⟩ [CrumbFetch.notFound, CrumbFetch.notFound] =
      (⟨none⟩, 2) := by decide

/-- C9 amended: the handshake is lazy and at most once *successful* per
client instance: a call that finds a stored crumb performs no handshake
and changes nothing; once a crumb is stored no later call in the sequence
performs the handshake or replaces it, so a successful handshake is
followed by zero further handshakes; a failed handshake leaves the crumb
unset and the next call retries. -/
theorem claim_C9_amended :
    (∀ (st : ClientState) (c : Crumb) (f : CrumbFetch),
      st.crumb = some c → ensureCrumb st f = (st, false, none)) ∧
    (∀ (st : ClientState) (c : Crumb) (fs : List CrumbFetch),
      st.crumb = some c → ensureCrumbSeq st fs = (st, 0)) ∧
    (∀ f v : String, f ≠ "" → v ≠ "" →
      ensureCrumb ⟨none⟩ (CrumbFetch.decoded f v) = (⟨some ⟨f, v⟩⟩, true, none)) ∧
    (∀ (f v : String) (fs : List CrumbFetch), f ≠ "" → v ≠ "" →
      ensureCrumbSeq ⟨none⟩ (CrumbFetch.decoded f v :: fs) =
        ((⟨some ⟨f, v⟩⟩ : ClientState), 1)) := by
  have hskip : ∀ (st : ClientState) (c : Crumb) (f : CrumbFetch),
      st.crumb = some c → ensureCrumb st f = (st, false, none) := by
    intro st c f h
    unfold ensureCrumb crumbHeader
    rw [h]
    rfl
  have hseq : ∀ (st : ClientState) (c : Crumb) (fs : List CrumbFetch),
      st.crumb = some c → ensureCrumbSeq st fs = (st, 0) := by
    intro st c fs h
    induction fs with
    | nil => rfl
    | cons f fs ih =>
      unfold ensureCrumbSeq
      rw [hskip st c f h]
      simp only []
      rw [ih]
      rfl
  have hstore : ∀ f v : String, f ≠ "" → v ≠ "" →
      ensureCrumb ⟨none⟩ (CrumbFetch.decoded f v) = (⟨some ⟨f, v⟩⟩, true, none) := by
    intro f v hf hv
    unfold ensureCrumb crumbHeader
    simp [hf, hv]
  refine ⟨hskip, hseq, hstore, ?honce⟩
  intro f v fs hf hv
  unfold ensureCrumbSeq
  rw [hstore f v hf hv]
  simp only []
  rw [hseq ⟨some ⟨f, v⟩⟩ ⟨f, v⟩ fs rfl]
  simp

/-- C9 amended witness: a stored crumb is never refreshed across a
sequence of calls; a fresh client stores on the first successful
handshake and performs exactly one handshake over the whole sequence. -/
theorem claim_C9_amended_witness :
    ensureCrumbSeq ⟨some ⟨"Jenkins-Crumb", "abc"⟩⟩
        [CrumbFetch.notFound, CrumbFetch.decoded "X" "Y"] =
      (⟨some ⟨"Jenkins-Crumb", "abc"⟩⟩, 0) ∧
    ensureCrumbSeq ⟨none⟩
        [CrumbFetch.decoded "Jenkins-Crumb" "abc", CrumbFetch.notFound,
          CrumbFetch.decoded "X" "Y"] =
      ((⟨some ⟨"Jenkins-Crumb", "abc"⟩⟩ : ClientState), 1) :=
  ⟨claim_C9_amended.2.1 _ ⟨"Jenkins-Crumb", "abc"⟩ _ rfl,
    claim_C9_amended.2.2.2 "Jenkins-Crumb" "abc"
      [CrumbFetch.notFound, CrumbFetch.decoded "X" "Y"]
      (by decide) (by decide)⟩

end JenkinsTui
